import Mathlib

/-!
Verification of the Königsberg bridges game (`src/game_python.py`).

The module embeds the graph model built by `KönigsbergBridgesGame.__init__`,
the Eulerian-path decision procedure `check_eulerian_path`, the wrapper
`find_eulerian_path`, the path validator `validate_user_path`, and the
bridge-selection state of `interactive_walk`, and proves the specified
properties about them.

Modelling choices:
* `networkx.MultiGraph` edges are a list of `Edge` records; `add_edge`
  assigns each parallel edge between the same unordered node pair the next
  integer key starting from 0, as networkx does.
* A bridge identity is the `(u, v, key)` triple the code stores in its
  `used_bridges` sets.
* Python sets of identities are lists to which an identity is added only
  after a membership test (exactly the discipline the source follows), so
  list length equals set cardinality.
-/

namespace GamePython

/-- One edge of the multigraph: endpoints as inserted, the networkx
multi-edge key, and the `name`/`color` attributes passed to `add_edge`. -/
structure Edge where
  u : String
  v : String
  key : Nat
  name : String
  color : String
deriving DecidableEq, BEq, Repr

/-- A step of a user path: `(from_area, to_area, bridge_name)`. -/
abbrev Step := String × String × String

/-- A bridge identity as stored in `used_bridges`: `(u, v, key)`. -/
abbrev BridgeId := String × String × Nat

/-- Number of edges already connecting the unordered pair `{a, b}`;
networkx uses this as the key of the next parallel edge. -/
def count_parallel (g : List Edge) (a b : String) : Nat :=
  (g.filter (fun e => (e.u == a && e.v == b) || (e.u == b && e.v == a))).length

/-- Model of `graph.add_edge(a, b, name=..., color=...)` on a `MultiGraph`. -/
def add_edge (g : List Edge) (a b name color : String) : List Edge :=
  g ++ [⟨a, b, count_parallel g a b, name, color⟩]

/-- The literal `self.bridges` list of `__init__`:
`(area_from, area_to, name, color)`. -/
def konigsbergBridges : List (String × String × String × String) :=
  [("A", "C", "Зеленый мост", "green"),
   ("A", "C", "Медовый мост", "gold"),
   ("A", "D", "Деревянный мост", "brown"),
   ("B", "C", "Высокий мост", "blue"),
   ("B", "C", "Кузнечный мост", "black"),
   ("B", "D", "Лавочный мост", "orange"),
   ("C", "D", "Императорский мост", "purple")]

/-- The graph after the `for a, b, data in self.bridges: add_edge` loop. -/
def konigsbergGraph : List Edge :=
  konigsbergBridges.foldl (fun g b => add_edge g b.1 b.2.1 b.2.2.1 b.2.2.2) []

/-- The mutable attributes of a `KönigsbergBridgesGame` object that the
core logic reads or could write (visualization fields are presentation
only and omitted). -/
structure GameState where
  graph : List Edge
  bridges : List (String × String × String × String)
  used_bridges : List BridgeId
  current_position : Option String
  path_history : List Step
deriving Repr

/-- The object `KönigsbergBridgesGame()` right after `__init__`. -/
def konigsbergGame : GameState :=
  { graph := konigsbergGraph
    bridges := konigsbergBridges
    used_bridges := []
    current_position := none
    path_history := [] }

/-- Append a node if not yet present (networkx node insertion order). -/
def insert_node (acc : List String) (n : String) : List String :=
  if n ∈ acc then acc else acc ++ [n]

/-- The node list of the multigraph, in first-appearance order, as
`graph.degree()` iterates it. -/
def node_list (g : List Edge) : List String :=
  g.foldl (fun acc e => insert_node (insert_node acc e.u) e.v) []

/-- Degree of `n` as `graph.degree()` reports it: the number of edge
endpoints incident to `n`. -/
def degree (g : List Edge) (n : String) : Nat :=
  (g.map (fun e => (if e.u = n then 1 else 0) + (if e.v = n then 1 else 0))).sum

/-- Count of odd-degree nodes:
`sum(1 for degree in degrees.values() if degree % 2 != 0)`. -/
def odd_degree_count (g : List Edge) : Nat :=
  ((node_list g).map (degree g)).foldl
    (fun acc d => if d % 2 ≠ 0 then acc + 1 else acc) 0

/-- Model of `check_eulerian_path`: true iff the number of odd-degree
nodes is 0 or 2. -/
def check_eulerian_path (st : GameState) : Bool :=
  odd_degree_count st.graph == 0 || odd_degree_count st.graph == 2

/-- Endpoint count of a node over the raw `self.bridges` tuples. -/
def endpoint_count (bs : List (String × String × String × String)) (n : String) : Nat :=
  (bs.map (fun b => (if b.1 = n then 1 else 0) + (if b.2.1 = n then 1 else 0))).sum

/-- Is the edge incident to node `n`? -/
def incident (e : Edge) (n : String) : Bool :=
  e.u == n || e.v == n

/-- The endpoint of `e` other than `n` (for `n` incident to `e`). -/
def other_endpoint (e : Edge) (n : String) : String :=
  if e.u = n then e.v else e.u

/-- Exhaustive trail search: an ordering of all remaining edges into a trail
starting at `pos`, if one exists.  `fuel` bounds the recursion depth; with
`fuel = remaining.length` the search is complete. -/
def euler_trail_from : Nat → String → List Edge → Option (List (String × String))
  | _, _, [] => some []
  | 0, _, _ :: _ => none
  | fuel + 1, pos, e :: es =>
    ((e :: es).filter (fun d => incident d pos)).findSome? (fun d =>
      (euler_trail_from fuel (other_endpoint d pos) ((e :: es).erase d)).map
        (fun t => (pos, other_endpoint d pos) :: t))

/-- Modelled from the spec: `findEulerianPath` delegates to the external
library routine `networkx.eulerian_path`, which is not part of `src/`.  Its
contract (spec §4.2 and the library documentation) is: return an ordering of
all edges forming an Eulerian trail when one exists, otherwise raise
`NetworkXError`.  The model searches exhaustively for such a trail from every
node and raises exactly when none exists. -/
def nx_eulerian_path (g : List Edge) : Except String (List (String × String)) :=
  match (node_list g).findSome? (fun s => euler_trail_from g.length s g) with
  | some t => Except.ok t
  | none => Except.error "NetworkXError: Graph has no Eulerian paths."

/-- Model of `find_eulerian_path`:
`try: return list(nx.eulerian_path(self.graph))` with
`except nx.NetworkXError: return None`. -/
def find_eulerian_path (st : GameState) : Option (List (String × String)) :=
  match nx_eulerian_path st.graph with
  | Except.ok t => some t
  | Except.error _ => none

/-- First edge of the graph whose `name` matches and whose endpoints are
`{u, v}` in either orientation — the inner loop of `validate_user_path`. -/
def find_bridge (g : List Edge) (u v name : String) : Option Edge :=
  g.find? (fun e =>
    e.name == name && ((e.u == u && e.v == v) || (e.u == v && e.v == u)))

/-- How Python renders `current_position` inside an f-string. -/
def pyShow : Option String → String
  | none => "None"
  | some s => s

/-- Message `f"Ошибка на шаге {i+1}: нельзя перейти из {current_position} в {u}"`. -/
def msg_origin (i : Nat) (cur : Option String) (u : String) : String :=
  let step := i + 1
  let pos := pyShow cur
  s!"Ошибка на шаге {step}: нельзя перейти из {pos} в {u}"

/-- Message `f"Ошибка на шаге {i+1}: моста {name} между {u} и {v} не существует"`. -/
def msg_not_found (i : Nat) (name u v : String) : String :=
  let step := i + 1
  s!"Ошибка на шаге {step}: моста {name} между {u} и {v} не существует"

/-- Message `f"Ошибка на шаге {i+1}: мост {name} уже использован"`. -/
def msg_reused (i : Nat) (name : String) : String :=
  let step := i + 1
  s!"Ошибка на шаге {step}: мост {name} уже использован"

/-- The success message of `validate_user_path`. -/
def msg_success : String :=
  "Отличный маршрут! Вы прошли все мосты без повторений!"

/-- Message `f"Использовано только {len(used_bridges)} из {len(self.bridges)} мостов"`. -/
def msg_incomplete (used total : Nat) : String :=
  s!"Использовано только {used} из {total} мостов"

/-- Initial running position:
`current_position = path[0][0] if path else None`. -/
def init_pos : List Step → Option String
  | [] => none
  | (u, _, _) :: _ => some u

/-- The `for i, (u, v, name) in enumerate(path)` loop of
`validate_user_path`: threads the local `used_bridges` set and
`current_position`, returning the first error message or the final used
set. -/
def replay (g : List Edge) : List Step → Option String → List BridgeId → Nat →
    Except String (List BridgeId)
  | [], _, used, _ => Except.ok used
  | (u, v, name) :: rest, cur, used, i =>
    if some u ≠ cur then Except.error (msg_origin i cur u)
    else
      match find_bridge g u v name with
      | none => Except.error (msg_not_found i name u v)
      | some e =>
        if (e.u, e.v, e.key) ∈ used then Except.error (msg_reused i name)
        else replay g rest (some v) ((e.u, e.v, e.key) :: used) (i + 1)

/-- Model of `validate_user_path(self, path)`: replay the path against
`self.graph`, then compare the used-set size with `len(self.bridges)`. -/
def validate_user_path (st : GameState) (path : List Step) : Bool × String :=
  match replay st.graph path (init_pos path) [] 0 with
  | Except.error m => (false, m)
  | Except.ok used =>
    if used.length = st.bridges.length then (true, msg_success)
    else (false, msg_incomplete used.length st.bridges.length)

/-- The method call as a state transformer on the game object: the body of
`validate_user_path` binds only the local names `used_bridges` and
`current_position` (shadowing the attributes) and assigns no attribute of
`self`, so the object state it returns is the one it received. -/
def validate_user_path_run (st : GameState) (path : List Step) :
    (Bool × String) × GameState :=
  (validate_user_path st path, st)

/-- Subscript `lst[i]` with Python's `IndexError` made explicit. -/
def pyIndex (l : List α) (i : Nat) : Except String α :=
  match l.get? i with
  | some x => Except.ok x
  | none => Except.error "IndexError: list index out of range"

/-- Version of `validate_user_path` with every partial Python operation
modelled in an exception monad: the only subscript in the body, `path[0][0]`, is guarded
by the truthiness test `if path`; everything else (the loop, set
operations, string formatting) is total. -/
def validate_user_path_exc (st : GameState) (path : List Step) :
    Except String (Bool × String) := do
  let cur ← if path.isEmpty then pure (none : Option String)
    else do
      let s ← pyIndex path 0
      pure (some s.1)
  match replay st.graph path cur [] 0 with
  | Except.error m => pure (false, m)
  | Except.ok used =>
    if used.length = st.bridges.length then pure (true, msg_success)
    else pure (false, msg_incomplete used.length st.bridges.length)

/-- Does each step start where the previous one ended, with the running
position threaded from `cur`? -/
def chained_from : Option String → List Step → Bool
  | _, [] => true
  | cur, (u, v, _) :: rest => (some u == cur) && chained_from (some v) rest

/-- Resolve every step of a path to the identity of the first matching
bridge; `none` if some step matches no bridge. -/
def resolve_all (g : List Edge) : List Step → Option (List BridgeId)
  | [] => some []
  | (u, v, name) :: rest =>
    match find_bridge g u v name with
    | none => none
    | some e => (resolve_all g rest).map (fun ids => (e.u, e.v, e.key) :: ids)

/-- The premise of the complete-traversal scenario: a 7-step path, chained
from its first origin, in which every step resolves to a bridge of the
fixed graph and no bridge identity occurs twice. -/
def full_traversal_premise (path : List Step) : Bool :=
  path.length == 7 && chained_from (init_pos path) path &&
    (match resolve_all konigsbergGraph path with
     | some ids => decide ids.Nodup
     | none => false)

/-- The identity `(u, v, key)` with its endpoints swapped — the other
orientation under which `interactive_walk` checks membership in
`used_bridges`. -/
def swap_id : BridgeId → BridgeId
  | (u, v, k) => (v, u, k)

/-- The session state mutated by `interactive_walk`: `current_position`,
`used_bridges` and `path_history` during a walk. -/
structure WalkState where
  current : String
  used : List BridgeId
  history : List Step
deriving DecidableEq, Repr

/-- The identity `(u, v, key)` of an edge as
`graph.edges(current_position, keys=True)` reports it: the queried node
first. -/
def report_id (e : Edge) (n : String) : BridgeId :=
  if e.u = n then (e.u, e.v, e.key) else (e.v, e.u, e.key)

/-- Destination computation
`direction = v if u == self.current_position else u` for a reported
identity `(u, v, key)`. -/
def move_dir (id : BridgeId) (n : String) : String :=
  if id.1 = n then id.2.1 else id.1

/-- The `available_bridges` list built at the top of each loop iteration:
for every edge incident to the current position, reported with the current
position first as `graph.edges(current_position, keys=True)` reports it,
keep it unless either orientation of its identity is in `used_bridges`;
record `(bridge_id, name, direction)`. -/
def available_bridges (g : List Edge) (current : String) (used : List BridgeId) :
    List (BridgeId × String × String) :=
  g.filterMap (fun e =>
    if incident e current then
      if report_id e current ∈ used ∨ swap_id (report_id e current) ∈ used then
        none
      else some (report_id e current, e.name, move_dir (report_id e current) current)
    else none)

/-- Applying the user's 1-based-turned-0-based choice `i`: when it indexes
`available_bridges`, add the bridge identity to `used_bridges`, append the
step to `path_history` and move to the destination; an out-of-range choice
leaves the state unchanged (the loop just re-prompts). -/
def apply_move (g : List Edge) (st : WalkState) (i : Nat) : WalkState :=
  match (available_bridges g st.current st.used).get? i with
  | none => st
  | some (id, name, direction) =>
    { current := direction
      used := if id ∈ st.used then st.used else id :: st.used
      history := st.history ++ [(st.current, direction, name)] }

/-- One loop iteration of `interactive_walk` on some user choice. -/
inductive WalkStep (g : List Edge) : WalkState → WalkState → Prop
  | move (st : WalkState) (i : Nat) : WalkStep g st (apply_move g st i)

/-- States reachable from a given session state by further iterations. -/
def ReachableFrom (g : List Edge) : WalkState → WalkState → Prop :=
  Relation.ReflTransGen (WalkStep g)

/-- The state `interactive_walk` initializes: position `A`, nothing used. -/
def walk_init : WalkState :=
  { current := "A", used := [], history := [] }

/-- Session states reachable in an interactive walk on graph `g`. -/
def Reachable (g : List Edge) (st : WalkState) : Prop :=
  ReachableFrom g walk_init st

/-! ### Helper lemmas -/

/-- The counting fold of `check_eulerian_path` counts the entries with
remainder 1 modulo 2. -/
theorem foldl_odd_count (l : List Nat) (a : Nat) :
    l.foldl (fun acc d => if d % 2 ≠ 0 then acc + 1 else acc) a
      = a + l.countP (fun d => decide (d % 2 = 1)) := by
  induction l generalizing a with
  | nil => simp
  | cons d l ih =>
    rw [List.foldl_cons, ih, List.countP_cons]
    rcases Nat.mod_two_eq_zero_or_one d with h | h
    · simp [h]
    · simp [h]
      omega

/-- Degree over the built graph equals the endpoint count over the raw
bridge tuples, for any starting accumulator graph. -/
theorem degree_foldl_add_edge (n : String) :
    ∀ (bs : List (String × String × String × String)) (g0 : List Edge),
      degree (bs.foldl (fun g b => add_edge g b.1 b.2.1 b.2.2.1 b.2.2.2) g0) n
        = degree g0 n + endpoint_count bs n := by
  intro bs
  induction bs with
  | nil => intro g0; simp [endpoint_count]
  | cons b bs ih =>
    intro g0
    rw [List.foldl_cons, ih]
    simp only [add_edge, degree, endpoint_count, List.map_append, List.sum_append,
      List.map_cons, List.sum_cons, List.map_nil, List.sum_nil]
    omega

/-- Degree in the fixed graph is the endpoint count over `self.bridges`. -/
theorem degree_eq_endpoint_count (n : String) :
    degree konigsbergGraph n = endpoint_count konigsbergBridges n := by
  have h := degree_foldl_add_edge n konigsbergBridges []
  simpa [konigsbergGraph, degree] using h

/-- Soundness of a fully resolvable, chained, repetition-free path: the
replay loop accepts it and collects exactly its resolved identities. -/
theorem replay_ok_of (g : List Edge) :
    ∀ (path : List Step) (cur : Option String) (used : List BridgeId) (i : Nat)
      (ids : List BridgeId),
      chained_from cur path = true → resolve_all g path = some ids →
      ids.Nodup → (∀ x ∈ ids, x ∉ used) →
      replay g path cur used i = Except.ok (ids.reverse ++ used) := by
  intro path
  induction path with
  | nil =>
    intro cur used i ids _ hres _ _
    simp only [resolve_all, Option.some.injEq] at hres
    subst hres
    simp [replay]
  | cons s rest ih =>
    obtain ⟨u, v, name⟩ := s
    intro cur used i ids hch hres hnd hdisj
    simp only [chained_from, Bool.and_eq_true, beq_iff_eq] at hch
    obtain ⟨hcu, hch⟩ := hch
    subst hcu
    simp only [resolve_all] at hres
    cases hfb : find_bridge g u v name with
    | none => rw [hfb] at hres; exact absurd hres (by simp)
    | some e =>
      rw [hfb] at hres
      cases hres2 : resolve_all g rest with
      | none => rw [hres2] at hres; exact absurd hres (by simp)
      | some ids' =>
        rw [hres2] at hres
        simp only [Option.map_some', Option.some.injEq] at hres
        subst hres
        obtain ⟨hnotmem, hnd'⟩ := List.nodup_cons.mp hnd
        have hbu : (e.u, e.v, e.key) ∉ used :=
          hdisj _ (List.mem_cons_self _ _)
        rw [replay, if_neg (fun hh => hh rfl), hfb]
        dsimp only
        rw [if_neg hbu]
        have hdisj' : ∀ x ∈ ids', x ∉ (e.u, e.v, e.key) :: used := by
          intro x hx
          rw [List.mem_cons]
          rintro (rfl | hxu)
          · exact hnotmem hx
          · exact hdisj x (List.mem_cons_of_mem _ hx) hxu
        rw [ih (some v) ((e.u, e.v, e.key) :: used) (i + 1) ids' hch hres2 hnd' hdisj']
        simp [List.reverse_cons, List.append_assoc]

/-- Completeness of the replay loop: acceptance forces a chained, fully
resolvable, repetition-free path whose resolved identities are the
collected used-set. -/
theorem replay_ok_inv (g : List Edge) :
    ∀ (path : List Step) (cur : Option String) (used : List BridgeId) (i : Nat)
      (f : List BridgeId),
      replay g path cur used i = Except.ok f →
      chained_from cur path = true ∧
      ∃ ids, resolve_all g path = some ids ∧ ids.Nodup ∧
        (∀ x ∈ ids, x ∉ used) ∧ f = ids.reverse ++ used := by
  intro path
  induction path with
  | nil =>
    intro cur used i f h
    simp only [replay, Except.ok.injEq] at h
    subst h
    exact ⟨rfl, [], rfl, List.nodup_nil, by simp, by simp⟩
  | cons s rest ih =>
    obtain ⟨u, v, name⟩ := s
    intro cur used i f h
    simp only [replay] at h
    by_cases hcu : some u = cur
    · subst hcu
      rw [if_neg (fun hh => hh rfl)] at h
      cases hfb : find_bridge g u v name with
      | none => rw [hfb] at h; exact absurd h (by simp)
      | some e =>
        rw [hfb] at h
        dsimp only at h
        by_cases hbu : (e.u, e.v, e.key) ∈ used
        · rw [if_pos hbu] at h; exact absurd h (by simp)
        · rw [if_neg hbu] at h
          obtain ⟨hch, ids', hres', hnd', hdisj', hf⟩ :=
            ih (some v) ((e.u, e.v, e.key) :: used) (i + 1) f h
          refine ⟨?_, (e.u, e.v, e.key) :: ids', ?_, ?_, ?_, ?_⟩
          · simp [chained_from, hch]
          · simp [resolve_all, hfb, hres']
          · rw [List.nodup_cons]
            exact ⟨fun hmem => hdisj' _ hmem (List.mem_cons_self _ _), hnd'⟩
          · intro x hx
            rcases List.mem_cons.mp hx with rfl | hx'
            · exact hbu
            · exact fun hxu => hdisj' x hx' (List.mem_cons_of_mem _ hxu)
          · rw [hf]; simp [List.reverse_cons, List.append_assoc]
    · rw [if_pos hcu] at h
      exact absurd h (by simp)

/-- Resolution preserves path length. -/
theorem resolve_all_length (g : List Edge) :
    ∀ (path : List Step) (ids : List BridgeId),
      resolve_all g path = some ids → ids.length = path.length := by
  intro path
  induction path with
  | nil =>
    intro ids h
    simp only [resolve_all, Option.some.injEq] at h
    subst h
    rfl
  | cons s rest ih =>
    obtain ⟨u, v, name⟩ := s
    intro ids h
    simp only [resolve_all] at h
    cases hfb : find_bridge g u v name with
    | none => rw [hfb] at h; exact absurd h (by simp)
    | some e =>
      rw [hfb] at h
      cases hres : resolve_all g rest with
      | none => rw [hres] at h; exact absurd h (by simp)
      | some ids' =>
        rw [hres] at h
        simp only [Option.map_some', Option.some.injEq] at h
        subst h
        simp [ih ids' hres]

/-- Swapping a reported identity twice gives it back. -/
theorem swap_id_swap_id (id : BridgeId) : swap_id (swap_id id) = id := by
  obtain ⟨u, v, k⟩ := id
  rfl

/-- Anything offered by `available_bridges` is unused in both orientations:
the membership filter of the enumeration loop. -/
theorem mem_available_bridges_not_used
    (g : List Edge) (current : String) (used : List BridgeId)
    (entry : BridgeId × String × String)
    (h : entry ∈ available_bridges g current used) :
    entry.1 ∉ used ∧ swap_id entry.1 ∉ used := by
  rw [available_bridges, List.mem_filterMap] at h
  obtain ⟨e, _, hf⟩ := h
  by_cases hinc : incident e current = true
  · rw [if_pos hinc] at hf
    by_cases hmem : report_id e current ∈ used ∨ swap_id (report_id e current) ∈ used
    · rw [if_pos hmem] at hf
      exact absurd hf (by simp)
    · rw [if_neg hmem] at hf
      push_neg at hmem
      obtain ⟨h1, h2⟩ := hmem
      cases hf
      exact ⟨h1, h2⟩
  · rw [if_neg hinc] at hf
    exact absurd hf (by simp)

/-- A move never removes anything from `used_bridges`. -/
theorem used_subset_apply_move (g : List Edge) (st : WalkState) (i : Nat) :
    ∀ x ∈ st.used, x ∈ (apply_move g st i).used := by
  intro x hx
  rw [apply_move]
  cases hget : (available_bridges g st.current st.used).get? i with
  | none => exact hx
  | some p =>
    obtain ⟨id, name, direction⟩ := p
    dsimp only
    split_ifs with hidm
    · exact hx
    · exact List.mem_cons_of_mem _ hx

/-- The `used_bridges` set grows monotonically along any run of the loop. -/
theorem used_subset_reachableFrom (g : List Edge) (s t : WalkState)
    (h : ReachableFrom g s t) : ∀ x ∈ s.used, x ∈ t.used := by
  induction h with
  | refl => exact fun x hx => hx
  | tail _ hbc ih =>
    intro x hx
    cases hbc with
    | move i => exact used_subset_apply_move g _ i x (ih x hx)

/-- A successfully selected bridge identity is recorded in `used_bridges`. -/
theorem mem_used_apply_move (g : List Edge) (st : WalkState) (i : Nat)
    (id : BridgeId) (name direction : String)
    (hget : (available_bridges g st.current st.used).get? i
      = some (id, name, direction)) :
    id ∈ (apply_move g st i).used := by
  rw [apply_move, hget]
  dsimp only
  split_ifs with hidm
  · exact hidm
  · exact List.mem_cons_self _ _

/-- The final tally of `validate_user_path` never throws: wrapping it in
the exception monad is the same as succeeding with the plain result. -/
theorem finish_exc (st : GameState) (r : Except String (List BridgeId)) :
    (match r with
     | Except.error m => (pure (false, m) : Except String (Bool × String))
     | Except.ok used =>
       if used.length = st.bridges.length then pure (true, msg_success)
       else pure (false, msg_incomplete used.length st.bridges.length))
    = Except.ok (match r with
     | Except.error m => (false, m)
     | Except.ok used =>
       if used.length = st.bridges.length then (true, msg_success)
       else (false, msg_incomplete used.length st.bridges.length)) := by
  cases r with
  | error m => rfl
  | ok used =>
    dsimp only
    split_ifs <;> rfl

/-! ### Claim theorems -/

/-- C1: for every multigraph state of the game's graph,
`check_eulerian_path` returns true if and only if the number of nodes of
odd degree is 0 or exactly 2. -/
theorem check_eulerian_path_iff_odd_count (st : GameState) :
    check_eulerian_path st = true ↔
      ((node_list st.graph).filter (fun n => degree st.graph n % 2 = 1)).length = 0 ∨
      ((node_list st.graph).filter (fun n => degree st.graph n % 2 = 1)).length = 2 := by
  have h : odd_degree_count st.graph
      = ((node_list st.graph).filter (fun n => degree st.graph n % 2 = 1)).length := by
    rw [odd_degree_count, foldl_odd_count, Nat.zero_add, List.countP_map,
      List.countP_eq_length_filter]
    rfl
  rw [check_eulerian_path, h]
  simp

/-- C2: on the fixed seven-bridge Königsberg topology,
`check_eulerian_path` returns false, the modelled `nx.eulerian_path` raises
`NetworkXError`, and `find_eulerian_path` catches it and returns the
explicit result `None` rather than propagating an exception. -/
theorem fixed_topology_no_eulerian_path :
    check_eulerian_path konigsbergGame = false ∧
    nx_eulerian_path konigsbergGame.graph
      = Except.error "NetworkXError: Graph has no Eulerian paths." ∧
    find_eulerian_path konigsbergGame = none := by
  refine ⟨by decide, ?_, ?_⟩ <;> rfl

/-- C3: in the graph built by `__init__` from the seven fixed bridges, the
degree of each node equals the number of incident bridge-endpoints:
A = 3, B = 3, C = 5, D = 3. -/
theorem konigsberg_degrees :
    degree konigsbergGraph "A" = 3 ∧
    degree konigsbergGraph "B" = 3 ∧
    degree konigsbergGraph "C" = 5 ∧
    degree konigsbergGraph "D" = 3 ∧
    ∀ n, degree konigsbergGraph n = endpoint_count konigsbergBridges n :=
  ⟨by decide, by decide, by decide, by decide, degree_eq_endpoint_count⟩

/-- C4: `validate_user_path` on the empty path returns invalid, with an
empty used-set (used count 0) reported in the incompleteness message. -/
theorem validate_empty_path :
    validate_user_path konigsbergGame [] = (false, msg_incomplete 0 7) ∧
    replay konigsbergGame.graph [] (init_pos []) [] 0 = Except.ok [] ∧
    msg_incomplete 0 7 = "Использовано только 0 из 7 мостов" :=
  ⟨rfl, rfl, rfl⟩

/-- C5: a path whose first step is `(A, B, "Зеленый мост")` is rejected at
step 1 with the bridge-not-found message, whatever follows, because no
bridge of that name connects A and B in either orientation. -/
theorem validate_wrong_endpoints_first_step (rest : List Step) :
    validate_user_path konigsbergGame (("A", "B", "Зеленый мост") :: rest)
      = (false, msg_not_found 0 "Зеленый мост" "A" "B") ∧
    find_bridge konigsbergGraph "A" "B" "Зеленый мост" = none ∧
    msg_not_found 0 "Зеленый мост" "A" "B"
      = "Ошибка на шаге 1: моста Зеленый мост между A и B не существует" :=
  ⟨rfl, rfl, rfl⟩

/-- C6: whenever the replay loop of `validate_user_path` reaches a step
whose origin matches the running position and whose name/endpoint pair
resolves to a bridge already in the running used-set, it stops with the
bridge-reused message for that step without examining any later step; and
any replay error is exactly the invalid verdict `validate_user_path`
returns. -/
theorem replay_reused_bridge (used : List BridgeId) (cur : Option String)
    (i : Nat) (u v name : String) (rest : List Step) (e : Edge)
    (hcur : cur = some u)
    (hfb : find_bridge konigsbergGraph u v name = some e)
    (hused : (e.u, e.v, e.key) ∈ used) :
    replay konigsbergGraph ((u, v, name) :: rest) cur used i
      = Except.error (msg_reused i name) ∧
    ∀ (path : List Step) (m : String),
      replay konigsbergGraph path (init_pos path) [] 0 = Except.error m →
      validate_user_path konigsbergGame path = (false, m) := by
  constructor
  · subst hcur
    rw [replay, if_neg (fun hh => hh rfl), hfb]
    dsimp only
    rw [if_pos hused]
  · intro path m hm
    rw [validate_user_path]
    have hg : konigsbergGame.graph = konigsbergGraph := rfl
    rw [hg, hm]

/-- Witness for C6: with `Медовый мост` (identity `(A, C, 1)`) already in
the used-set, a step crossing it again from C is rejected with the reused
message for that step. -/
theorem replay_reused_bridge_witness :
    replay konigsbergGraph [("C", "A", "Медовый мост"), ("A", "D", "Деревянный мост")]
        (some "C") [("A", "C", 1)] 1
      = Except.error (msg_reused 1 "Медовый мост") ∧
    msg_reused 1 "Медовый мост" = "Ошибка на шаге 2: мост Медовый мост уже использован" := by
  refine ⟨?_, rfl⟩
  exact (replay_reused_bridge [("A", "C", 1)] (some "C") 1 "C" "A" "Медовый мост"
    [("A", "D", "Деревянный мост")]
    ⟨"A", "C", 1, "Медовый мост", "gold"⟩ rfl (by decide) (by decide)).1

/-- C7: a path is accepted by `validate_user_path` with all seven bridges
used (used count 7) exactly when it has 7 steps, each step's origin equals
the previous step's destination starting from the first origin, every step
resolves to a bridge of the fixed graph, and no bridge identity is used
twice.  In particular every such 7-step path validates to
`(true, msg_success)` with used count 7. -/
theorem validate_full_traversal (path : List Step) :
    (validate_user_path konigsbergGame path = (true, msg_success) ∧
      (replay konigsbergGraph path (init_pos path) [] 0).map List.length
        = Except.ok 7) ↔
    full_traversal_premise path = true := by
  have hg : konigsbergGame.graph = konigsbergGraph := rfl
  have hb : konigsbergGame.bridges.length = 7 := rfl
  constructor
  · rintro ⟨hval, _⟩
    rw [validate_user_path, hg] at hval
    cases hrep : replay konigsbergGraph path (init_pos path) [] 0 with
    | error m => rw [hrep] at hval; exact absurd hval (by simp)
    | ok used =>
      rw [hrep] at hval
      dsimp only at hval
      by_cases hlen : used.length = konigsbergGame.bridges.length
      · obtain ⟨hch, ids, hres, hnd, _, hf⟩ :=
          replay_ok_inv konigsbergGraph path (init_pos path) [] 0 used hrep
        have hidlen : ids.length = path.length :=
          resolve_all_length konigsbergGraph path ids hres
        have hulen : used.length = ids.length := by
          rw [hf]; simp
        rw [hb] at hlen
        have hplen : path.length = 7 := by omega
        rw [full_traversal_premise, hres]
        simp [hplen, hch, hnd]
      · rw [if_neg hlen] at hval
        exact absurd hval (by simp)
  · intro hp
    rw [full_traversal_premise] at hp
    simp only [Bool.and_eq_true, beq_iff_eq] at hp
    obtain ⟨⟨hplen, hch⟩, hres⟩ := hp
    cases hres2 : resolve_all konigsbergGraph path with
    | none => rw [hres2] at hres; exact absurd hres (by simp)
    | some ids =>
      rw [hres2] at hres
      have hnd : ids.Nodup := of_decide_eq_true hres
      have hrep := replay_ok_of konigsbergGraph path (init_pos path) [] 0 ids
        hch hres2 hnd (by simp)
      have hidlen : ids.length = path.length :=
        resolve_all_length konigsbergGraph path ids hres2
      have hulen : (ids.reverse ++ ([] : List BridgeId)).length = 7 := by
        simp [hidlen, hplen]
      constructor
      · rw [validate_user_path, hg, hrep]
        dsimp only
        rw [if_pos (by rw [hb]; exact hulen)]
      · rw [hrep]
        simp [Except.map, hidlen, hplen]

/-- C8: `validate_user_path` is pure and deterministic — on any game state
it returns its verdict as an explicit value, leaves every attribute of the
object (graph, bridges, used_bridges, current_position, path_history)
unchanged, and calling it again on the resulting state gives the identical
result. -/
theorem validate_user_path_pure (st : GameState) (path : List Step) :
    validate_user_path_run st path = (validate_user_path st path, st) ∧
    (validate_user_path_run st path).2 = st ∧
    validate_user_path_run (validate_user_path_run st path).2 path
      = validate_user_path_run st path ∧
    (validate_user_path_run st path).2.graph = st.graph ∧
    (validate_user_path_run st path).2.used_bridges = st.used_bridges ∧
    (validate_user_path_run st path).2.current_position = st.current_position ∧
    (validate_user_path_run st path).2.path_history = st.path_history :=
  ⟨rfl, rfl, rfl, rfl, rfl, rfl, rfl⟩

/-- C9: offered moves are never already crossed in either stored
orientation, in any reachable session state; and once a move is applied,
its identity is in `used_bridges` and no later reachable state offers that
bridge again in either orientation. -/
theorem walk_used_bridge_invariant (g : List Edge) (st : WalkState)
    (_hreach : Reachable g st) :
    (∀ entry ∈ available_bridges g st.current st.used,
        entry.1 ∉ st.used ∧ swap_id entry.1 ∉ st.used) ∧
    (∀ (i : Nat) (id : BridgeId) (name direction : String),
        (available_bridges g st.current st.used).get? i = some (id, name, direction) →
        id ∈ (apply_move g st i).used ∧
        ∀ st', ReachableFrom g (apply_move g st i) st' →
          ∀ entry ∈ available_bridges g st'.current st'.used,
            entry.1 ≠ id ∧ entry.1 ≠ swap_id id) := by
  refine ⟨fun entry he => mem_available_bridges_not_used g st.current st.used entry he, ?_⟩
  intro i id name direction hget
  have hmem : id ∈ (apply_move g st i).used :=
    mem_used_apply_move g st i id name direction hget
  refine ⟨hmem, ?_⟩
  intro st' hst' entry he
  have hid' : id ∈ st'.used :=
    used_subset_reachableFrom g (apply_move g st i) st' hst' id hmem
  obtain ⟨h1, h2⟩ := mem_available_bridges_not_used g st'.current st'.used entry he
  constructor
  · rintro rfl
    exact h1 hid'
  · intro hsw
    apply h2
    rw [hsw, swap_id_swap_id]
    exact hid'

/-- Witness for C9: from the initial state of the walk on the fixed graph,
choosing move 0 (the `Зеленый мост` to C) records identity `(A, C, 0)` in
`used_bridges`. -/
theorem walk_used_bridge_invariant_witness :
    ("A", "C", 0) ∈ (apply_move konigsbergGraph walk_init 0).used := by
  exact ((walk_used_bridge_invariant konigsbergGraph walk_init
    Relation.ReflTransGen.refl).2 0 ("A", "C", 0) "Зеленый мост" "C" (by decide)).1

/-- C10: `validate_user_path` is total over its interface: on every finite
list of string triples — arbitrary area labels and bridge names included —
its exception-explicit model returns the ordinary `(bool, message)` result
and never an exception. -/
theorem validate_user_path_total (st : GameState) (path : List Step) :
    validate_user_path_exc st path = Except.ok (validate_user_path st path) := by
  cases path with
  | nil => exact finish_exc st (replay st.graph [] none [] 0)
  | cons s rest =>
    obtain ⟨u, v, name⟩ := s
    exact finish_exc st (replay st.graph ((u, v, name) :: rest) (some u) [] 0)

end GamePython
